import Mathlib

/-!
Verification of the Microsoft Loop exporter (`src/main.mjs`, the final
revision of the script, lines 314-533 of the packed source).

The script drives a browser session: it opens a named workspace, expands the
navigation tree to a fixpoint, enumerates the tree items, and runs a per-item
export-to-PDF pipeline, accumulating `successCount` / `skippedCount`.

Shallow embedding: every browser interaction (click, waitForSelector,
waitForEvent, evaluate) is a suspension point whose outcome the environment
decides.  We model each such outcome as a boolean field of an environment
record and each JavaScript function as a pure Lean function from that
environment to an `Except JsError` result, where `.error` models an exception
escaping the function and `.ok` a normal return.
-/

deriving instance DecidableEq for Except

namespace LoopExporter

/-- Exceptions that browser-driver calls can raise, named after the call
site in `src/main.mjs` that raises them. -/
inductive JsError where
  | newPageFailed
  | gotoFailed
  | workspaceSelectorTimeout
  | workspaceNotFound
  | workspaceClickFailed
  | expandIconsTimeout
  | treeItemsTimeout
  | itemClickFailed
  | popupCreationFailed
  | loadStateFailed
  | evaluateFailed
deriving DecidableEq

/-- Reasons attached to a skipped item, one per `console.warn`/`console.error`
short-circuit in `exportItemToPDF` (lines 405-431). -/
inductive SkipReason where
  | optionsMenuNotReady
  | exportOptionNotFound
  | exportError
deriving DecidableEq

/-- The outcome `exportItemToPDF` reports to the run loop: the string
`"exported"` or `"skipped"` (lines 407, 414, 427, 430). -/
inductive ExportOutcome where
  | exported
  | skipped (reason : SkipReason)
deriving DecidableEq

/-- Result of `handlePopupPrint`: whether `waitForFunction (() => window.__printed)`
resolved (`console.log` branch) or timed out (`console.warn` branch, caught). -/
inductive PrintStatus where
  | triggered
  | timedOut
deriving DecidableEq

/-- Whether the input (first argument) starts with the pattern (second). -/
def startsWithChars : List Char → List Char → Bool
  | _, [] => true
  | [], _ :: _ => false
  | a :: as, b :: bs => a = b && startsWithChars as bs

/-- Whether the pattern (second argument) occurs as a contiguous substring
of the input (first argument). -/
def containsChars : List Char → List Char → Bool
  | [], pat => pat.isEmpty
  | a :: as, pat => startsWithChars (a :: as) pat || containsChars as pat

/-- JavaScript `String.prototype.includes`: case-sensitive substring test;
an empty pattern is always contained. -/
def jsIncludes (s pat : String) : Bool :=
  containsChars s.data pat.data

/-- JavaScript `String.prototype.trim`: strip whitespace from both ends. -/
def trimChars (l : List Char) : List Char :=
  ((l.dropWhile Char.isWhitespace).reverse.dropWhile Char.isWhitespace).reverse

/-- The text extracted from one menu entry in `findPDFOption` (line 437):
`el.textContent?.trim() || ""`.  `none` models a null `textContent`. -/
def menuItemText : Option String → String
  | none => ""
  | some s => String.mk (trimChars s.data)

/-- `findPDFOption` (lines 434-441): scan the rendered menu entries in order
and return the first whose trimmed text contains `"PDF"`; `none` when no
entry matches. -/
def findPDFOption : List (Option String) → Option (Option String)
  | [] => none
  | e :: rest =>
    if jsIncludes (menuItemText e) "PDF" then some e else findPDFOption rest

/-- Modelled from the spec: "scan all rendered menu entries' text content
(case-sensitive substring match against the literal token "PDF"); the first
match wins".  Stated with `List.find?` to compare against `findPDFOption`. -/
def pdfOptionSpec (entries : List (Option String)) : Option (Option String) :=
  entries.find? (fun e => jsIncludes (menuItemText e) "PDF")

/-- Environment for one item of the export pipeline: one boolean per
browser-interaction outcome inside `exportItemToPDF` / `handlePopupPrint`
(lines 395-461), plus the text of the rendered menu entries. -/
structure ItemEnv where
  /-- `item.click()` resolves (line 397). -/
  itemClickOk : Bool
  /-- `waitForSelector("button[aria-label=...]")` resolves within 10s (line 401). -/
  moreOptionsAppears : Bool
  /-- `page.click` on the options button resolves (line 402). -/
  moreOptionsClickOk : Bool
  /-- `waitForSelector` for the menu-item list resolves (line 403). -/
  menuListAppears : Bool
  /-- `textContent` of each rendered menu entry, in DOM order (line 435). -/
  menuEntries : List (Option String)
  /-- `Promise.all([context.waitForEvent("page"), exportButton.click()])`
  resolves with a popup (lines 417-420). -/
  popupOk : Bool
  /-- `popup.waitForLoadState()` resolves (line 444). -/
  loadStateOk : Bool
  /-- `popup.evaluate` injecting the print signal resolves (lines 446-453). -/
  evaluateOk : Bool
  /-- `waitForFunction (() => window.__printed)` resolves within 10s (line 456). -/
  printSignalFires : Bool
  /-- `popup.close()` resolves (line 425). -/
  closeOk : Bool
deriving DecidableEq

/-- `handlePopupPrint` (lines 443-461): wait for load state, inject the
`__printed` flag and the wrapped `window.print`, then wait (bounded) for the
flag; the wait timeout is caught and logged, so it yields a normal return. -/
def handlePopupPrint (env : ItemEnv) : Except JsError PrintStatus :=
  if env.loadStateOk then
    if env.evaluateOk then
      if env.printSignalFires then .ok .triggered else .ok .timedOut
    else .error .evaluateFailed
  else .error .loadStateFailed

/-- The three-step options-menu opening guarded by one `try` (lines 399-408). -/
def menuOpened (env : ItemEnv) : Bool :=
  env.moreOptionsAppears && env.moreOptionsClickOk && env.menuListAppears

/-- `exportItemToPDF` (lines 395-432).  `item.click()` (line 397) and the
popup-creation `Promise.all` (lines 417-420) are outside every `try`, so
their failures raise past the function; the menu `try` returns `"skipped"`,
a missing PDF option returns `"skipped"`, and the popup-handling `try`
(lines 422-431) returns `"exported"` or `"skipped"`. -/
def exportItemToPDF (env : ItemEnv) : Except JsError ExportOutcome :=
  if env.itemClickOk then
    if menuOpened env then
      match findPDFOption env.menuEntries with
      | none => .ok (.skipped .exportOptionNotFound)
      | some _ =>
        if env.popupOk then
          match handlePopupPrint env with
          | .ok _ =>
            if env.closeOk then .ok .exported else .ok (.skipped .exportError)
          | .error _ => .ok (.skipped .exportError)
        else .error .popupCreationFailed
    else .ok (.skipped .optionsMenuNotReady)
  else .error .itemClickFailed

/-- Environment for the tree-expansion engine (`expandTreeItems`,
lines 463-494).  The visible expand affordances are determined by which
nodes have been successfully expanded so far: `icons s` is the list of
`(node identity, label)` pairs returned by
`page.$$(".fui-TreeItemLayout__expandIcon")` when the set of successfully
expanded nodes is `s`, in DOM order; a node identity is an abstract `Nat`
and its label the parent element's trimmed `textContent` (line 473).
`clickFails p` says whether `icon.click()` on node `p` throws (line 478). -/
structure ExpandEnv where
  icons : Finset Nat → List (Nat × String)
  clickFails : Nat → Bool

/-- State observable after one pass of the `for (const icon of expandIcons)`
loop in `expandTreeItems` (lines 472-486). -/
structure PassResult where
  /-- nodes successfully expanded in the live DOM -/
  exp : Finset Nat
  /-- the `expandedItemsKeys` memo set (line 464) -/
  memo : Finset String
  /-- the `expanded` flag of this pass (line 470) -/
  expanded : Bool
  /-- labels whose icons were click-attempted, in order (line 478) -/
  clicks : List String

/-- One pass of the icon loop in `expandTreeItems` (lines 472-486): for each
icon, skip it when its label is already in the memo set; otherwise attempt
the click (a throw is caught and logged, line 480-482), then add the label
to the memo and set the `expanded` flag regardless of the click outcome. -/
def runPass (fails : Nat → Bool) :
    List (Nat × String) → Finset Nat → Finset String → Bool → PassResult
  | [], exp, memo, expanded => ⟨exp, memo, expanded, []⟩
  | (p, l) :: rest, exp, memo, expanded =>
    if l ∈ memo then runPass fails rest exp memo expanded
    else
      let exp2 := if fails p then exp else insert p exp
      let r := runPass fails rest exp2 (insert l memo) true
      ⟨r.exp, r.memo, r.expanded, l :: r.clicks⟩

/-- Result of a terminated run of the expansion engine. -/
structure ExpandResult where
  exp : Finset Nat
  memo : Finset String
deriving DecidableEq

/-- `expandTreeItems` (lines 466-494), with explicit `fuel` bounding the
recursion depth (`none` models a recursion that has not yet terminated
within `fuel` passes).  Each call first waits (bounded, 10s) for an expand
icon to exist: when none exists the `waitForSelector` timeout raises
(line 468 has no `try`), modelled by `.error .expandIconsTimeout`.
Otherwise it runs one pass over the icons and recurses exactly when the
pass set the `expanded` flag (lines 488-493).  The returned list is the
click trace accumulated across all passes. -/
def expandTreeItems (env : ExpandEnv) :
    Nat → Finset Nat → Finset String →
      Option (List String × Except JsError ExpandResult)
  | 0, _, _ => none
  | fuel + 1, exp, memo =>
    if (env.icons exp).isEmpty then some ([], .error .expandIconsTimeout)
    else
      let r := runPass env.clickFails (env.icons exp) exp memo false
      if r.expanded then
        (expandTreeItems env fuel r.exp r.memo).map
          (fun x => (r.clicks ++ x.1, x.2))
      else some (r.clicks, .ok ⟨r.exp, r.memo⟩)

/-- Environment for one whole run (`run`, lines 497-528): the outcome of
each browser interaction up to the item loop, the expansion environment,
and the per-item environments of the enumerated tree items, in DOM order. -/
structure RunEnv where
  /-- `context.newPage()` resolves (line 503). -/
  newPageOk : Bool
  /-- `page.goto(LOOP_URL)` resolves (line 370). -/
  gotoOk : Bool
  /-- `waitForSelector` for the workspace selector resolves (line 373). -/
  workspaceAppears : Bool
  /-- `page.$(selector)` returns a non-null handle (lines 374-378). -/
  workspaceButtonFound : Bool
  /-- `button.click()` resolves (line 381). -/
  workspaceClickOk : Bool
  /-- environment of the tree-expansion engine. -/
  expand : ExpandEnv
  /-- both `waitForSelector` calls in `getTreeItems` resolve (lines 387-388). -/
  treeItemsAppear : Bool
  /-- enumerated tree items (line 390), in DOM order. -/
  items : List ItemEnv

/-- `openWorkspace` (lines 367-383): navigate, wait (bounded) for the
workspace selector, throw `"Workspace not found"` when the handle is null,
click it.  Every failure raises to the caller. -/
def openWorkspace (env : RunEnv) : Except JsError Unit :=
  if env.gotoOk then
    if env.workspaceAppears then
      if env.workspaceButtonFound then
        if env.workspaceClickOk then .ok () else .error .workspaceClickFailed
      else .error .workspaceNotFound
    else .error .workspaceSelectorTimeout
  else .error .gotoFailed

/-- `getTreeItems` (lines 385-393): wait for the tree items and the loaded
subtree marker (raising on timeout), then enumerate the items. -/
def getTreeItems (env : RunEnv) : Except JsError (List ItemEnv) :=
  if env.treeItemsAppear then .ok env.items else .error .treeItemsTimeout

/-- The `for` loop of `run` (lines 510-516): drive `exportItemToPDF` over
the items in order with the two counters; a result of `"exported"`
increments `successCount`, any other result increments `skippedCount`; an
exception from `exportItemToPDF` aborts the loop.  Also returns the ghost
trace of per-item outcomes, in processing order. -/
def processItems :
    List ItemEnv → Nat → Nat → Except JsError (Nat × Nat × List ExportOutcome)
  | [], s, k => .ok (s, k, [])
  | e :: rest, s, k =>
    match exportItemToPDF e with
    | .error err => .error err
    | .ok o =>
      if o = ExportOutcome.exported then
        (processItems rest (s + 1) k).map (fun r => (r.1, r.2.1, o :: r.2.2))
      else
        (processItems rest s (k + 1)).map (fun r => (r.1, r.2.1, o :: r.2.2))

/-- The `try` block of `run` (lines 502-520), from `context.newPage()` to
the final summary.  The memo set `expandedItemsKeys` (line 464) is created
empty at module load, so the single run starts expansion with `∅`. -/
def runBody (env : RunEnv) (fuel : Nat) : Option (Except JsError (Nat × Nat)) :=
  if env.newPageOk then
    match openWorkspace env with
    | .error e => some (.error e)
    | .ok _ =>
      match expandTreeItems env.expand fuel ∅ ∅ with
      | none => none
      | some (_, .error e) => some (.error e)
      | some (_, .ok _) =>
        match getTreeItems env with
        | .error e => some (.error e)
        | .ok items =>
          match processItems items 0 0 with
          | .error e => some (.error e)
          | .ok (s, k, _) => some (.ok (s, k))
  else some (.error .newPageFailed)

/-- How the process ends after `run`: normal completion with the two summary
counters, or `process.exit(1)` from the `catch` block. -/
inductive RunEnd where
  | completed (exported skipped : Nat)
  | exitedOne
deriving DecidableEq

/-- Observable end state of one run: how often `context.close()` ran and how
the process ended. -/
structure RunResult where
  closeCount : Nat
  endState : RunEnd
deriving DecidableEq

/-- `run` (lines 497-528).  When the `try` block completes, the `finally`
clause runs `context.close()` once and the process then finishes normally.
When the `try` block throws, the `catch` block (line 521-523) logs and calls
`process.exit(1)`: in Node.js `process.exit` terminates the process at once,
so control never reaches the `finally` clause and `context.close()` runs
zero times on that path. -/
def run (env : RunEnv) (fuel : Nat) : Option RunResult :=
  match runBody env fuel with
  | none => none
  | some (.ok (s, k)) => some ⟨1, .completed s k⟩
  | some (.error _) => some ⟨0, .exitedOne⟩

/-- A single-quote character, written by code point to keep source plain. -/
def squoteChar : Char := Char.ofNat 39

/-- A closing-bracket character `]`. -/
def rbracketChar : Char := Char.ofNat 93

/-- A backslash character, written by code point to keep source plain. -/
def backslashChar : Char := Char.ofNat 92

/-- A newline character. -/
def newlineChar : Char := Char.ofNat 10

/-- The workspace-locating selector built by `openWorkspace` (line 368):
direct, unescaped interpolation of the workspace name between single quotes
inside `div[aria-label*=...]`. -/
def workspaceSelector (name : String) : String :=
  "div[aria-label*=" ++ String.mk [squoteChar] ++ name ++
    String.mk [squoteChar] ++ "]"

/-- Characters of the fixed selector part up to and including the opening
quote: `div[aria-label*='`. -/
def selHeadChars : List Char := "div[aria-label*=".data ++ [squoteChar]

/-- Consume an exact literal character sequence from the front of the input;
`none` when the input does not start with it. -/
def dropLitChars : List Char → List Char → Option (List Char)
  | [], rest => some rest
  | _ :: _, [] => none
  | c :: cs, d :: ds => if d = c then dropLitChars cs ds else none

/-- Modelled from the spec of CSS single-quoted strings (external to the
repository): the character consumed by a backslash escape decodes to
itself, except that a backslash before a newline is a line continuation
producing nothing.  (Hex escapes are decoded here as the escaped
characters themselves; this simplification affects neither which
selectors are well-formed nor the length accounting the theorems below
rely on, since every escape consumes two input characters and yields at
most one value character, as in CSS.) -/
def escDecode (d : Char) : List Char :=
  if d = newlineChar then [] else [d]

/-- Modelled from the spec of CSS attribute selectors (external to the
repository): after the opening quote of `div[aria-label*='v']`, a
well-formed single-quoted value is a run of items, each either an ordinary
character (not a quote, backslash or newline) or a backslash escape
consuming the following character; an unescaped newline or an unterminated
string is a parse error.  The value is closed by an unescaped quote that is
immediately followed by `]` and the end of the selector.  The boolean flag
records a consumed backslash still awaiting its escaped character.
Returns the decoded value characters. -/
def parseQuotedTail : Bool → List Char → Option (List Char)
  | _, [] => none
  | true, d :: ds => (parseQuotedTail false ds).map (fun v => escDecode d ++ v)
  | false, c :: cs =>
    if c = squoteChar then
      if cs = [rbracketChar] then some [] else none
    else if c = backslashChar then parseQuotedTail true cs
    else if c = newlineChar then none
    else (parseQuotedTail false cs).map (fun v => c :: v)

/-- The value a string denotes when read as a well-formed selector of the
shape `div[aria-label*='v']` (substring match on `v`), `none` when it is not
well-formed in that shape. -/
def attrSelectorValue (sel : String) : Option String :=
  match dropLitChars selHeadChars sel.data with
  | none => none
  | some rest => (parseQuotedTail false rest).map (fun v => String.mk v)

/-! Concrete environments used to evaluate the model at specific inputs. -/

/-- An item for which every step succeeds and the print signal fires. -/
def itemEnvHappy : ItemEnv :=
  ⟨true, true, true, true, [some "Export page as PDF"], true, true, true, true, true⟩

/-- An item whose pipeline reaches the print wait but the print signal
never fires within the bounded wait. -/
def itemEnvPrintTimeout : ItemEnv :=
  ⟨true, true, true, true, [some "Export page as PDF"], true, true, true, false, true⟩

/-- An item whose options menu never becomes ready. -/
def itemEnvMenuFail : ItemEnv :=
  ⟨true, false, true, true, [some "Export page as PDF"], true, true, true, true, true⟩

/-- An item whose rendered menu holds no PDF-labelled entry. -/
def itemEnvNoPDF : ItemEnv :=
  ⟨true, true, true, true, [some "Copy link", none, some "Delete page"],
    true, true, true, true, true⟩

/-- An item whose popup-creation await fails (the click opened no popup). -/
def itemEnvPopupFail : ItemEnv :=
  ⟨true, true, true, true, [some "Export page as PDF"], false, true, true, true, true⟩

/-- A tree with no expand affordance at all (zero-depth tree). -/
def expandEnvEmpty : ExpandEnv := ⟨fun _ => [], fun _ => false⟩

/-- A tree with a single expand affordance labelled `"A"` that stays in the
DOM after expansion, and whose clicks succeed. -/
def expandEnvOne : ExpandEnv := ⟨fun _ => [(0, "A")], fun _ => false⟩

/-- A run in which every step succeeds and the single item exports. -/
def runEnvHappy : RunEnv :=
  ⟨true, true, true, true, true, expandEnvOne, true, [itemEnvHappy]⟩

/-- A run in which the workspace never appears within its bounded wait. -/
def runEnvWorkspaceMissing : RunEnv :=
  ⟨true, true, false, true, true, expandEnvOne, true, [itemEnvHappy]⟩

/-! Helper lemmas about one expansion pass. -/

/-- The memo set, click trace and `expanded` flag produced by a pass do not
depend on the click-failure oracle or on the DOM expansion state: those only
influence which clicks take effect, not the loop's control flow. -/
theorem runPass_obs_eq (fails fails2 : Nat → Bool) (icons : List (Nat × String))
    (exp exp2 : Finset Nat) (memo : Finset String) (b : Bool) :
    (runPass fails icons exp memo b).memo = (runPass fails2 icons exp2 memo b).memo ∧
    (runPass fails icons exp memo b).clicks = (runPass fails2 icons exp2 memo b).clicks ∧
    (runPass fails icons exp memo b).expanded = (runPass fails2 icons exp2 memo b).expanded := by
  induction icons generalizing exp exp2 memo b with
  | nil => simp [runPass]
  | cons pl rest ih =>
    obtain ⟨p, l⟩ := pl
    by_cases h : l ∈ memo
    · simpa [runPass, h] using ih exp exp2 memo b
    · simpa [runPass, h] using
        ih (if fails p then exp else insert p exp)
          (if fails2 p then exp2 else insert p exp2) (insert l memo) true

/-- Membership in the memo set after a pass: the old memo plus every label
carried by an icon of this pass. -/
theorem runPass_mem_memo (fails : Nat → Bool) (icons : List (Nat × String))
    (exp : Finset Nat) (memo : Finset String) (b : Bool) (x : String) :
    x ∈ (runPass fails icons exp memo b).memo ↔
      x ∈ memo ∨ x ∈ icons.map Prod.snd := by
  induction icons generalizing exp memo b with
  | nil => simp [runPass]
  | cons pl rest ih =>
    obtain ⟨p, l⟩ := pl
    by_cases h : l ∈ memo
    · rw [runPass, if_pos h]
      simp only [ih, List.map_cons, List.mem_cons]
      constructor
      · tauto
      · rintro (hx | rfl | hx) <;> tauto
    · rw [runPass, if_neg h]
      simp only [PassResult.mk.injEq]
      show x ∈ (runPass fails rest _ (insert l memo) true).memo ↔ _
      simp only [ih, Finset.mem_insert, List.map_cons, List.mem_cons]
      tauto

/-- A pass that set the `expanded` flag starting from `false` met an icon
whose label was not yet memoized. -/
theorem runPass_expanded_new (fails : Nat → Bool) (icons : List (Nat × String))
    (exp : Finset Nat) (memo : Finset String) :
    (runPass fails icons exp memo false).expanded = true →
      ∃ p l, (p, l) ∈ icons ∧ l ∉ memo := by
  induction icons generalizing exp memo with
  | nil => simp [runPass]
  | cons pl rest ih =>
    obtain ⟨p, l⟩ := pl
    by_cases h : l ∈ memo
    · rw [runPass, if_pos h]
      intro hx
      obtain ⟨p2, l2, hmem, hl2⟩ := ih exp memo hx
      exact ⟨p2, l2, List.mem_cons_of_mem _ hmem, hl2⟩
    · intro _
      exact ⟨p, l, List.mem_cons_self _ _, h⟩

/-- Membership in the click trace of a pass: exactly the icon labels that
were not yet memoized when the pass started. -/
theorem runPass_mem_clicks (fails : Nat → Bool) (icons : List (Nat × String))
    (exp : Finset Nat) (memo : Finset String) (b : Bool) (x : String) :
    x ∈ (runPass fails icons exp memo b).clicks ↔
      x ∈ icons.map Prod.snd ∧ x ∉ memo := by
  induction icons generalizing exp memo b with
  | nil => simp [runPass]
  | cons pl rest ih =>
    obtain ⟨p, l⟩ := pl
    by_cases h : l ∈ memo
    · rw [runPass, if_pos h]
      simp only [ih, List.map_cons, List.mem_cons]
      constructor
      · tauto
      · rintro ⟨hx | hx, hm⟩
        · exact absurd (hx ▸ h) hm
        · exact ⟨hx, hm⟩
    · rw [runPass, if_neg h]
      show x ∈ l :: (runPass fails rest _ (insert l memo) true).clicks ↔ _
      simp only [List.mem_cons, ih, Finset.mem_insert, List.map_cons]
      constructor
      · rintro (rfl | ⟨hx, hne⟩)
        · exact ⟨Or.inl rfl, h⟩
        · exact ⟨Or.inr hx, fun hm => hne (Or.inr hm)⟩
      · rintro ⟨rfl | hx, hm⟩
        · exact Or.inl rfl
        · by_cases hxl : x = l
          · exact Or.inl hxl
          · exact Or.inr ⟨hx, fun hc => hc.elim hxl hm⟩

/-- The click trace of one pass holds no duplicate label. -/
theorem runPass_clicks_nodup (fails : Nat → Bool) (icons : List (Nat × String))
    (exp : Finset Nat) (memo : Finset String) (b : Bool) :
    (runPass fails icons exp memo b).clicks.Nodup := by
  induction icons generalizing exp memo b with
  | nil => simp [runPass]
  | cons pl rest ih =>
    obtain ⟨p, l⟩ := pl
    by_cases h : l ∈ memo
    · rw [runPass, if_pos h]
      exact ih exp memo b
    · rw [runPass, if_neg h]
      show (l :: (runPass fails rest _ (insert l memo) true).clicks).Nodup
      refine List.nodup_cons.2 ⟨fun hc => ?_, ih _ _ _⟩
      exact ((runPass_mem_clicks fails rest _ (insert l memo) true l).1 hc).2
        (Finset.mem_insert_self l memo)

/-- Unfolding equation for a fueled call of `expandTreeItems`. -/
theorem expandTreeItems_succ (env : ExpandEnv) (fuel : Nat) (exp : Finset Nat)
    (memo : Finset String) :
    expandTreeItems env (fuel + 1) exp memo =
      if (env.icons exp).isEmpty then some ([], .error .expandIconsTimeout)
      else
        if (runPass env.clickFails (env.icons exp) exp memo false).expanded then
          (expandTreeItems env fuel
              (runPass env.clickFails (env.icons exp) exp memo false).exp
              (runPass env.clickFails (env.icons exp) exp memo false).memo).map
            (fun x =>
              ((runPass env.clickFails (env.icons exp) exp memo false).clicks ++ x.1,
                x.2))
        else
          some ((runPass env.clickFails (env.icons exp) exp memo false).clicks,
            .ok ⟨(runPass env.clickFails (env.icons exp) exp memo false).exp,
              (runPass env.clickFails (env.icons exp) exp memo false).memo⟩) := rfl

/-- C3: for every finite navigation tree (every environment whose icon
labels are drawn from a finite set `L`, covering zero-depth and deeply
nested trees), `expandTreeItems` terminates: a pass that expanded something
recurses, a pass that expanded nothing returns, the memo set grows strictly
on every recursing pass within `L`, so fuel exceeding the number of
not-yet-memoized labels is enough for the recursion to reach its fixpoint
(`isSome` = the recursion has terminated, normally or with the no-icon
timeout raise). -/
theorem expandTreeItems_terminates (env : ExpandEnv) (L : Finset String)
    (hlab : ∀ s p l, (p, l) ∈ env.icons s → l ∈ L) :
    ∀ (fuel : Nat) (exp : Finset Nat) (memo : Finset String),
      (L \ memo).card < fuel → (expandTreeItems env fuel exp memo).isSome = true := by
  intro fuel
  induction fuel with
  | zero => intro exp memo h; exact absurd h (Nat.not_lt_zero _)
  | succ n ih =>
    intro exp memo h
    rw [expandTreeItems_succ]
    by_cases he : (env.icons exp).isEmpty = true
    · rw [if_pos he]; rfl
    · rw [if_neg he]
      by_cases hx : (runPass env.clickFails (env.icons exp) exp memo false).expanded = true
      · rw [if_pos hx]
        have hcard :
            (L \ (runPass env.clickFails (env.icons exp) exp memo false).memo).card < n := by
          obtain ⟨p, l, hpl, hlm⟩ :=
            runPass_expanded_new env.clickFails (env.icons exp) exp memo hx
          have hlL : l ∈ L := hlab exp p l hpl
          have hlmem : l ∈ (runPass env.clickFails (env.icons exp) exp memo false).memo :=
            (runPass_mem_memo _ _ _ _ _ l).2
              (Or.inr (List.mem_map.2 ⟨(p, l), hpl, rfl⟩))
          have hsubset :
              L \ (runPass env.clickFails (env.icons exp) exp memo false).memo ⊆
                L \ memo := by
            intro x hx2
            rw [Finset.mem_sdiff] at hx2 ⊢
            exact ⟨hx2.1, fun hm =>
              hx2.2 ((runPass_mem_memo _ _ _ _ _ x).2 (Or.inl hm))⟩
          have hss :
              L \ (runPass env.clickFails (env.icons exp) exp memo false).memo ⊂
                L \ memo :=
            (Finset.ssubset_iff_of_subset hsubset).2
              ⟨l, Finset.mem_sdiff.2 ⟨hlL, hlm⟩, by
                rw [Finset.mem_sdiff]; tauto⟩
          have := Finset.card_lt_card hss
          omega
        obtain ⟨y, hy⟩ := Option.isSome_iff_exists.1 (ih _ _ hcard)
        rw [hy]; rfl
      · rw [if_neg hx]; rfl

/-- C4: across a whole run of the expansion engine the click trace carries
no label twice, and no label that was already in the memo set at the start:
once a label is memoized, no later iteration or recursive pass clicks an
expand affordance with that label again. -/
theorem expandTreeItems_labels_once (env : ExpandEnv) :
    ∀ (fuel : Nat) (exp : Finset Nat) (memo : Finset String)
      (tr : List String) (res : Except JsError ExpandResult),
      expandTreeItems env fuel exp memo = some (tr, res) →
        tr.Nodup ∧ ∀ l ∈ tr, l ∉ memo := by
  intro fuel
  induction fuel with
  | zero => intro exp memo tr res h; exact absurd h (by rw [expandTreeItems]; simp)
  | succ n ih =>
    intro exp memo tr res h
    rw [expandTreeItems_succ] at h
    by_cases he : (env.icons exp).isEmpty = true
    · rw [if_pos he] at h
      simp only [Option.some.injEq, Prod.mk.injEq] at h
      rw [← h.1]
      exact ⟨List.nodup_nil, by simp⟩
    · rw [if_neg he] at h
      by_cases hx : (runPass env.clickFails (env.icons exp) exp memo false).expanded = true
      · rw [if_pos hx] at h
        obtain ⟨⟨tr2, res2⟩, hrec, hmap⟩ := Option.map_eq_some'.1 h
        simp only [Prod.mk.injEq] at hmap
        obtain ⟨ih1, ih2⟩ := ih _ _ tr2 res2 hrec
        rw [← hmap.1]
        constructor
        · rw [List.nodup_append]
          refine ⟨runPass_clicks_nodup _ _ _ _ _, ih1, ?_⟩
          intro x hxc hxt
          have hxm : x ∈ (runPass env.clickFails (env.icons exp) exp memo false).memo :=
            (runPass_mem_memo _ _ _ _ _ x).2
              (Or.inr ((runPass_mem_clicks _ _ _ _ _ x).1 hxc).1)
          exact ih2 x hxt hxm
        · intro l hl
          rcases List.mem_append.1 hl with hc | ht
          · exact ((runPass_mem_clicks _ _ _ _ _ l).1 hc).2
          · exact fun hm =>
              ih2 l ht ((runPass_mem_memo _ _ _ _ _ l).2 (Or.inl hm))
      · rw [if_neg hx] at h
        simp only [Option.some.injEq, Prod.mk.injEq] at h
        rw [← h.1]
        exact ⟨runPass_clicks_nodup _ _ _ _ _,
          fun l hl => ((runPass_mem_clicks _ _ _ _ _ l).1 hl).2⟩

/-- C4 witness: on the one-icon tree the engine terminates with the
duplicate-free click trace `["A"]`. -/
theorem expandTreeItems_labels_once_witness : (["A"] : List String).Nodup :=
  (expandTreeItems_labels_once expandEnvOne 2 ∅ ∅ ["A"]
    (.ok ⟨{0}, {"A"}⟩) (by decide)).1

/-- C3 witness: on the one-icon tree with label set `{"A"}`, fuel `2`
exceeds the remaining-label count and the engine terminates. -/
theorem expandTreeItems_terminates_witness :
    (expandTreeItems expandEnvOne 2 ∅ ∅).isSome = true :=
  expandTreeItems_terminates expandEnvOne {"A"}
    (by intro s p l h; simp [expandEnvOne] at h; simp [h.2]) 2 ∅ ∅ (by decide)

/-- C5 counterexample: on a zero-depth tree (no expand affordance ever
appears) the engine raises the `waitForSelector` timeout error instead of
returning normally as the fully-expanded terminal case. -/
theorem expandTreeItems_no_icons_counterexample :
    expandTreeItems expandEnvEmpty 5 ∅ ∅ = some ([], .error .expandIconsTimeout) := by
  decide

/-- C5 (amended): when no expand affordance exists at the start of a pass,
the bounded `waitForSelector` raises its timeout error, which propagates
out of `expandTreeItems` uncaught (only the per-icon click is guarded), so
the run aborts; the engine does not treat this as a normal
fully-expanded return. -/
theorem expandTreeItems_no_icons_error (env : ExpandEnv) (fuel : Nat)
    (exp : Finset Nat) (memo : Finset String) (h : env.icons exp = []) :
    expandTreeItems env (fuel + 1) exp memo =
      some ([], .error .expandIconsTimeout) := by
  rw [expandTreeItems_succ, if_pos (by rw [h]; rfl)]

/-- C5 witness: the amended statement evaluated on the empty-tree
environment. -/
theorem expandTreeItems_no_icons_witness :
    expandTreeItems expandEnvEmpty 1 ∅ ∅ = some ([], .error .expandIconsTimeout) :=
  expandTreeItems_no_icons_error expandEnvEmpty 0 ∅ ∅ rfl

/-- C6: a click that throws during an expansion pass is contained at the
node boundary: the pass returns normally with the same memo set, click
trace and `expanded` flag as a pass whose clicks all succeed (so the
remaining affordances are still processed), and the failing node's label is
still added to the memo set so it is never retried. -/
theorem runPass_click_failure_contained (fails : Nat → Bool)
    (icons : List (Nat × String)) (exp exp2 : Finset Nat) (memo : Finset String)
    (b : Bool) (p : Nat) (l : String)
    (hmem : (p, l) ∈ icons) (_hfail : fails p = true) :
    l ∈ (runPass fails icons exp memo b).memo ∧
    (runPass fails icons exp memo b).memo =
      (runPass (fun _ => false) icons exp2 memo b).memo ∧
    (runPass fails icons exp memo b).clicks =
      (runPass (fun _ => false) icons exp2 memo b).clicks ∧
    (runPass fails icons exp memo b).expanded =
      (runPass (fun _ => false) icons exp2 memo b).expanded := by
  refine ⟨?_, runPass_obs_eq fails (fun _ => false) icons exp exp2 memo b⟩
  exact (runPass_mem_memo _ _ _ _ _ l).2
    (Or.inr (List.mem_map.2 ⟨(p, l), hmem, rfl⟩))

/-- C6 witness: a failing click on the only icon still memoizes its label
and the pass observables match the all-clicks-succeed pass. -/
theorem runPass_click_failure_witness :
    "A" ∈ (runPass (fun _ => true) [(0, "A")] ∅ ∅ false).memo ∧
    (runPass (fun _ => true) [(0, "A")] ∅ ∅ false).memo =
      (runPass (fun _ => false) [(0, "A")] {7} ∅ false).memo ∧
    (runPass (fun _ => true) [(0, "A")] ∅ ∅ false).clicks =
      (runPass (fun _ => false) [(0, "A")] {7} ∅ false).clicks ∧
    (runPass (fun _ => true) [(0, "A")] ∅ ∅ false).expanded =
      (runPass (fun _ => false) [(0, "A")] {7} ∅ false).expanded :=
  runPass_click_failure_contained (fun _ => true) [(0, "A")] ∅ {7} ∅ false 0 "A"
    (by decide) rfl

/-- C1 counterexample: when the popup-await step fails (the export-option
click opens no popup), `exportItemToPDF` raises `popupCreationFailed` past
its boundary instead of returning an `Exported`/`Skipped` outcome — the
`Promise.all` of lines 417-420 sits outside every `try`. -/
theorem exportItemToPDF_popup_failure_raises :
    exportItemToPDF itemEnvPopupFail = .error .popupCreationFailed := by decide

/-- C1 (amended): provided the item-selection click succeeds and, when the
pipeline reaches it, the popup-creation await succeeds, `exportItemToPDF`
returns exactly one `Exported`/`Skipped` outcome for every combination of
the remaining per-step outcomes (menu open failure, PDF option missing,
popup print-handling failure, print-signal timeout, full success); a
failing item click or popup await instead raises past the boundary. -/
theorem exportItemToPDF_total_given_click_and_popup (env : ItemEnv)
    (h1 : env.itemClickOk = true) (h2 : env.popupOk = true) :
    ∃ o, exportItemToPDF env = Except.ok o := by
  unfold exportItemToPDF
  rw [if_pos h1]
  by_cases hm : menuOpened env = true
  · rw [if_pos hm]
    cases hf : findPDFOption env.menuEntries with
    | none => exact ⟨_, rfl⟩
    | some b =>
      rw [if_pos h2]
      cases hp : handlePopupPrint env with
      | error e => exact ⟨_, rfl⟩
      | ok st =>
        by_cases hc : env.closeOk = true
        · rw [if_pos hc]; exact ⟨_, rfl⟩
        · rw [if_neg hc]; exact ⟨_, rfl⟩
  · rw [if_neg hm]; exact ⟨_, rfl⟩

/-- C1 witness: the fully-succeeding item resolves to an outcome. -/
theorem exportItemToPDF_total_witness :
    ∃ o, exportItemToPDF itemEnvHappy = Except.ok o :=
  exportItemToPDF_total_given_click_and_popup itemEnvHappy rfl rfl

/-- C7: for an item whose pipeline reaches the print-wait step, a timeout
of the print-signal wait is absorbed inside `handlePopupPrint` (the warn
branch), the item outcome stays `Exported`, and the run loop proceeds to
the remaining items with the success counter incremented. -/
theorem print_timeout_keeps_exported (env : ItemEnv) (rest : List ItemEnv)
    (s k : Nat)
    (h1 : env.itemClickOk = true) (h2 : menuOpened env = true)
    (h3 : (findPDFOption env.menuEntries).isSome = true)
    (h4 : env.popupOk = true) (h5 : env.loadStateOk = true)
    (h6 : env.evaluateOk = true) (h7 : env.printSignalFires = false)
    (h8 : env.closeOk = true) :
    handlePopupPrint env = Except.ok PrintStatus.timedOut ∧
    exportItemToPDF env = Except.ok ExportOutcome.exported ∧
    processItems (env :: rest) s k =
      (processItems rest (s + 1) k).map
        (fun r => (r.1, r.2.1, ExportOutcome.exported :: r.2.2)) := by
  have hpp : handlePopupPrint env = .ok .timedOut := by
    simp [handlePopupPrint, h5, h6, h7]
  have hexp : exportItemToPDF env = .ok .exported := by
    obtain ⟨x, hx⟩ := Option.isSome_iff_exists.1 h3
    simp [exportItemToPDF, h1, h2, hx, h4, hpp, h8]
  refine ⟨hpp, hexp, ?_⟩
  simp [processItems, hexp]

/-- C7 witness: the print-timeout item evaluates to `Exported` and the loop
continues. -/
theorem print_timeout_witness :
    handlePopupPrint itemEnvPrintTimeout = Except.ok PrintStatus.timedOut ∧
    exportItemToPDF itemEnvPrintTimeout = Except.ok ExportOutcome.exported ∧
    processItems [itemEnvPrintTimeout] 0 0 =
      (processItems [] 1 0).map
        (fun r => (r.1, r.2.1, ExportOutcome.exported :: r.2.2)) :=
  print_timeout_keeps_exported itemEnvPrintTimeout [] 0 0 rfl rfl (by decide)
    rfl rfl rfl rfl rfl

/-- C9: `findPDFOption` scans the rendered menu entries in order and
returns the first whose trimmed text contains the literal, case-sensitive
token `"PDF"` (it coincides with the first-match search `pdfOptionSpec`
written from the spec); when no entry matches, `exportItemToPDF` classifies
the item as skipped with the export-option-not-found diagnostic.  The two
closed conjuncts exhibit case sensitivity (`"pdf"` does not match) and
first-match selection. -/
theorem findPDFOption_first_match :
    (∀ entries, findPDFOption entries = pdfOptionSpec entries) ∧
    (∀ env : ItemEnv, env.itemClickOk = true → menuOpened env = true →
        findPDFOption env.menuEntries = none →
        exportItemToPDF env =
          Except.ok (ExportOutcome.skipped SkipReason.exportOptionNotFound)) ∧
    findPDFOption [some "pdf export"] = none ∧
    findPDFOption [some "  Export page as PDF  ", some "Another PDF entry"] =
      some (some "  Export page as PDF  ") := by
  refine ⟨?_, ?_, by decide, by decide⟩
  · intro entries
    induction entries with
    | nil => rfl
    | cons e rest ih =>
      by_cases hp : jsIncludes (menuItemText e) "PDF" = true
      · rw [findPDFOption, if_pos hp]
        simp [pdfOptionSpec, List.find?, hp]
      · have hp2 : jsIncludes (menuItemText e) "PDF" = false := by
          simpa using hp
        rw [findPDFOption, if_neg hp, ih]
        simp [pdfOptionSpec, List.find?, hp2]
  · intro env h1 h2 h0
    simp [exportItemToPDF, h1, h2, h0]

/-- C9 witness: an item whose menu has no PDF-labelled entry is skipped
with the export-option-not-found diagnostic. -/
theorem findPDFOption_witness :
    exportItemToPDF itemEnvNoPDF =
      Except.ok (ExportOutcome.skipped SkipReason.exportOptionNotFound) :=
  findPDFOption_first_match.2.1 itemEnvNoPDF rfl rfl (by decide)

/-- Invariant of the item loop: when it completes, the two counters have
grown by exactly the number of items, every item's outcome corresponds to
the item at the same position (sequential, enumeration-order processing),
and the counters count exactly the `exported` and non-`exported` outcomes. -/
theorem processItems_spec (items : List ItemEnv) :
    ∀ (s k s2 k2 : Nat) (tr : List ExportOutcome),
      processItems items s k = .ok (s2, k2, tr) →
        s2 + k2 = s + k + items.length ∧
        List.Forall₂ (fun e o => exportItemToPDF e = Except.ok o) items tr ∧
        s2 = s + tr.countP (fun o => decide (o = ExportOutcome.exported)) ∧
        k2 = k + tr.countP (fun o => decide (¬ o = ExportOutcome.exported)) := by
  induction items with
  | nil =>
    intro s k s2 k2 tr h
    simp only [processItems, Except.ok.injEq, Prod.mk.injEq] at h
    obtain ⟨hs, hk, htr⟩ := h
    subst hs; subst hk
    rw [← htr]
    simp
  | cons e rest ih =>
    intro s k s2 k2 tr h
    rw [processItems] at h
    cases hE : exportItemToPDF e with
    | error err => rw [hE] at h; exact absurd h (by simp)
    | ok o =>
      simp only [hE] at h
      by_cases ho : o = ExportOutcome.exported
      · rw [if_pos ho] at h
        cases hrec : processItems rest (s + 1) k with
        | error err =>
          rw [hrec] at h; exact absurd h (by simp [Except.map])
        | ok r =>
          obtain ⟨a, b, tr2⟩ := r
          rw [hrec] at h
          simp only [Except.map, Except.ok.injEq, Prod.mk.injEq] at h
          obtain ⟨ha, hb, htr⟩ := h
          obtain ⟨ihl, ihf, ihs, ihk⟩ := ih (s + 1) k a b tr2 hrec
          rw [← ha, ← hb, ← htr]
          refine ⟨by simp only [List.length_cons]; omega,
            List.Forall₂.cons hE ihf, ?_, ?_⟩
          · rw [List.countP_cons_of_pos]
            · omega
            · simp [ho]
          · rw [List.countP_cons_of_neg]
            · omega
            · simp [ho]
      · rw [if_neg ho] at h
        cases hrec : processItems rest s (k + 1) with
        | error err =>
          rw [hrec] at h; exact absurd h (by simp [Except.map])
        | ok r =>
          obtain ⟨a, b, tr2⟩ := r
          rw [hrec] at h
          simp only [Except.map, Except.ok.injEq, Prod.mk.injEq] at h
          obtain ⟨ha, hb, htr⟩ := h
          obtain ⟨ihl, ihf, ihs, ihk⟩ := ih s (k + 1) a b tr2 hrec
          rw [← ha, ← hb, ← htr]
          refine ⟨by simp only [List.length_cons]; omega,
            List.Forall₂.cons hE ihf, ?_, ?_⟩
          · rw [List.countP_cons_of_neg]
            · omega
            · simp [ho]
          · rw [List.countP_cons_of_pos]
            · omega
            · simp [ho]

/-- When the `try` block of `run` completes with a summary, the item loop
completed over exactly the enumerated items. -/
theorem runBody_ok (env : RunEnv) (fuel : Nat) (s k : Nat)
    (h : runBody env fuel = some (.ok (s, k))) :
    ∃ tr, processItems env.items 0 0 = .ok (s, k, tr) := by
  unfold runBody at h
  by_cases hn : env.newPageOk = true
  · rw [if_pos hn] at h
    cases how : openWorkspace env with
    | error e => rw [how] at h; exact absurd h (by simp)
    | ok u =>
      simp only [how] at h
      cases hex : expandTreeItems env.expand fuel ∅ ∅ with
      | none => rw [hex] at h; exact absurd h (by simp)
      | some pr =>
        obtain ⟨tr0, res⟩ := pr
        simp only [hex] at h
        cases res with
        | error e => exact absurd h (by simp)
        | ok r2 =>
          cases hgt : getTreeItems env with
          | error e => simp only [hgt] at h; exact absurd h (by simp)
          | ok items =>
            simp only [hgt] at h
            have hitems : items = env.items := by
              unfold getTreeItems at hgt
              by_cases ht : env.treeItemsAppear = true
              · rw [if_pos ht] at hgt
                injection hgt with hh
                exact hh.symm
              · rw [if_neg ht] at hgt
                exact absurd hgt (by simp)
            cases hpi : processItems items 0 0 with
            | error e => simp only [hpi] at h; exact absurd h (by simp)
            | ok triple =>
              obtain ⟨s2, k2, tr⟩ := triple
              simp only [hpi, Option.some.injEq, Except.ok.injEq,
                Prod.mk.injEq] at h
              exact ⟨tr, by rw [← hitems, hpi, h.1, h.2]⟩
  · rw [if_neg hn] at h; exact absurd h (by simp)

/-- C8: whenever a run reaches the final summary, the run controller has
driven `exportItemToPDF` over the enumerated items strictly sequentially in
enumeration order (the outcome trace corresponds index-by-index to the item
list), each outcome incremented exactly one of the two counters, and the
exported counter plus the skipped counter equals the number of enumerated
items. -/
theorem run_counts_and_order (env : RunEnv) (fuel : Nat) (s k : Nat)
    (h : run env fuel = some ⟨1, RunEnd.completed s k⟩) :
    s + k = env.items.length ∧
    ∃ tr, List.Forall₂ (fun e o => exportItemToPDF e = Except.ok o) env.items tr ∧
      s = tr.countP (fun o => decide (o = ExportOutcome.exported)) ∧
      k = tr.countP (fun o => decide (¬ o = ExportOutcome.exported)) := by
  unfold run at h
  cases hb : runBody env fuel with
  | none => rw [hb] at h; exact absurd h (by simp)
  | some res =>
    rw [hb] at h
    cases res with
    | error e =>
      exact absurd h (by simp [RunResult.mk.injEq])
    | ok p =>
      obtain ⟨s2, k2⟩ := p
      simp only [Option.some.injEq, RunResult.mk.injEq, RunEnd.completed.injEq,
        true_and] at h
      obtain ⟨hs, hk⟩ := h
      subst hs; subst hk
      obtain ⟨tr, htr⟩ := runBody_ok env fuel s2 k2 hb
      obtain ⟨hl, hf, hcs, hck⟩ := processItems_spec env.items 0 0 s2 k2 tr htr
      exact ⟨by omega, tr, hf, by omega, by omega⟩

/-- C8 witness: a run over one fully-succeeding item completes with
summary `1 + 0 = 1` and an order-preserving outcome trace. -/
theorem run_counts_and_order_witness :
    1 + 0 = runEnvHappy.items.length ∧
    ∃ tr, List.Forall₂ (fun e o => exportItemToPDF e = Except.ok o)
        runEnvHappy.items tr ∧
      1 = tr.countP (fun o => decide (o = ExportOutcome.exported)) ∧
      0 = tr.countP (fun o => decide (¬ o = ExportOutcome.exported)) :=
  run_counts_and_order runEnvHappy 3 1 0 (by decide)

/-- C2 (code bug): when the `try` block of `run` throws — here because the
workspace never appears — the `catch` block's `process.exit(1)` terminates
the process before the `finally` clause, so `context.close()` runs zero
times, not once; on a normally completing run it runs exactly once.  This
contradicts the claimed teardown-on-every-path guarantee (and spec
scenario 4). -/
theorem run_teardown_skipped_on_fatal :
    run runEnvWorkspaceMissing 1 = some ⟨0, RunEnd.exitedOne⟩ ∧
    run runEnvHappy 3 = some ⟨1, RunEnd.completed 1 0⟩ := by decide

/-- Consuming a literal from the front of itself plus a tail leaves the tail. -/
theorem dropLitChars_append (lit rest : List Char) :
    dropLitChars lit (lit ++ rest) = some rest := by
  induction lit with
  | nil => rfl
  | cons c cs ih => simp [dropLitChars, ih]

/-- String append acts as list append on the underlying characters. -/
theorem string_data_append (s t : String) : (s ++ t).data = s.data ++ t.data := rfl

/-- The characters of the interpolated selector: fixed head, then the raw
name, then the closing quote and bracket. -/
theorem workspaceSelector_data (name : String) :
    (workspaceSelector name).data =
      selHeadChars ++ (name.data ++ [squoteChar, rbracketChar]) := by
  show ("div[aria-label*=" ++ String.mk [squoteChar] ++ name ++
      String.mk [squoteChar] ++ "]").data = _
  rw [string_data_append, string_data_append, string_data_append,
    string_data_append]
  have hrb : "]".data = [rbracketChar] := rfl
  rw [hrb]
  simp [selHeadChars, List.append_assoc]

/-- Length accounting for the quoted-tail parse of an interpolated name:
when the parse of `name ++ quote ++ bracket` succeeds, the decoded value is
never longer than the name (escapes consume two characters and yield at
most one), and it is strictly shorter as soon as the name contains a quote
— an interior quote either terminates the string early (leaving the final
quote-and-bracket unconsumed, a parse failure) or is consumed by an escape
that shrinks the value. -/
theorem parseQuotedTail_append_length :
    ∀ (n : Nat) (l : List Char), l.length ≤ n →
      ∀ v, parseQuotedTail false (l ++ [squoteChar, rbracketChar]) = some v →
        v.length ≤ l.length ∧ (squoteChar ∈ l → v.length < l.length) := by
  intro n
  induction n with
  | zero =>
    intro l hl v hv
    have hnil : l = [] := List.length_eq_zero.1 (Nat.le_zero.1 hl)
    subst hnil
    rw [List.nil_append, parseQuotedTail, if_pos rfl, if_pos rfl] at hv
    rw [← Option.some.inj hv]
    simp
  | succ n ih =>
    intro l hl v hv
    cases l with
    | nil =>
      rw [List.nil_append, parseQuotedTail, if_pos rfl, if_pos rfl] at hv
      rw [← Option.some.inj hv]
      simp
    | cons c cs =>
      rw [List.cons_append, parseQuotedTail] at hv
      by_cases hq : c = squoteChar
      · rw [if_pos hq] at hv
        have hne : ¬ (cs ++ [squoteChar, rbracketChar] = [rbracketChar]) := by
          intro heq
          have hlen := congrArg List.length heq
          simp at hlen
        rw [if_neg hne] at hv
        exact absurd hv (by simp)
      · rw [if_neg hq] at hv
        by_cases hb : c = backslashChar
        · rw [if_pos hb] at hv
          cases cs with
          | nil =>
            rw [List.nil_append, parseQuotedTail] at hv
            rw [show parseQuotedTail false [rbracketChar] = none from by decide]
              at hv
            exact absurd hv (by simp)
          | cons d cs2 =>
            rw [List.cons_append, parseQuotedTail] at hv
            obtain ⟨v2, hv2, hdec⟩ := Option.map_eq_some'.1 hv
            have hlen2 : cs2.length ≤ n := by
              simp only [List.length_cons] at hl
              omega
            have hih := (ih cs2 hlen2 v2 hv2).1
            have hesc : (escDecode d).length ≤ 1 := by
              unfold escDecode
              by_cases hd : d = newlineChar
              · rw [if_pos hd]; simp
              · rw [if_neg hd]; simp
            subst hdec
            simp only [List.length_append, List.length_cons]
            exact ⟨by omega, fun _ => by omega⟩
        · rw [if_neg hb] at hv
          by_cases hn2 : c = newlineChar
          · rw [if_pos hn2] at hv
            exact absurd hv (by simp)
          · rw [if_neg hn2] at hv
            obtain ⟨v2, hv2, hdec⟩ := Option.map_eq_some'.1 hv
            have hlen2 : cs.length ≤ n := by
              simp only [List.length_cons] at hl
              omega
            have hih := ih cs hlen2 v2 hv2
            subst hdec
            simp only [List.length_cons]
            constructor
            · have := hih.1
              omega
            · intro hmem
              have h2 : squoteChar ∈ cs := by
                rcases List.mem_cons.1 hmem with h3 | h3
                · exact absurd h3.symm hq
                · exact h3
              have := hih.2 h2
              omega

/-- C10 counterexample: a workspace name consisting of a closing bracket
contains a closing-bracket character, yet the interpolated selector is a
well-formed `div[aria-label*='...']` attribute selector denoting substring
match on exactly that name — refuting the claim that a closing bracket in
the name breaks the selector. -/
theorem workspaceSelector_rbracket_wellformed :
    rbracketChar ∈ (String.mk [rbracketChar]).data ∧
    attrSelectorValue (workspaceSelector (String.mk [rbracketChar])) =
      some (String.mk [rbracketChar]) := by decide

/-- Concrete behaviour of the escape production: the name backslash-quote
interpolates to a selector that is well-formed under CSS escaping but
denotes the value quote, not the name; backslash-bracket likewise denotes
the value bracket; a name that is a lone quote terminates the string early
and fails to parse, and a name that is a lone backslash swallows the
closing quote and leaves the string unterminated. -/
theorem workspaceSelector_escape_examples :
    attrSelectorValue (workspaceSelector (String.mk [backslashChar, squoteChar])) =
      some (String.mk [squoteChar]) ∧
    attrSelectorValue (workspaceSelector (String.mk [backslashChar, rbracketChar])) =
      some (String.mk [rbracketChar]) ∧
    attrSelectorValue (workspaceSelector (String.mk [squoteChar])) = none ∧
    attrSelectorValue (workspaceSelector (String.mk [backslashChar])) = none := by
  decide

/-- C10 (amended): `openWorkspace` interpolates the workspace name
unescaped into `div[aria-label*='...']`; for every name that contains a
single-quote character the constructed selector is not a well-formed
attribute selector for that name — an interior quote either terminates the
quoted value early (leaving the trailing quote-and-bracket unparseable) or
is consumed by a backslash escape, making the denoted value strictly
shorter than the name — so workspace lookup does not behave as a plain
substring match on the label for such inputs.  A name consisting of a
closing bracket alone still yields a well-formed selector for exactly that
name (see the counterexample), so the bracket half of the original claim
is dropped. -/
theorem workspaceSelector_quote_not_that_name (name : String)
    (h : squoteChar ∈ name.data) :
    attrSelectorValue (workspaceSelector name) ≠ some name := by
  intro hcon
  unfold attrSelectorValue at hcon
  rw [workspaceSelector_data, dropLitChars_append] at hcon
  change (parseQuotedTail false (name.data ++ [squoteChar, rbracketChar])).map
    (fun v => String.mk v) = some name at hcon
  obtain ⟨v, hv, hmk⟩ := Option.map_eq_some'.1 hcon
  have hdata : v = name.data := by
    have := congrArg String.data hmk
    exact this
  have hlt :=
    (parseQuotedTail_append_length name.data.length name.data le_rfl v hv).2 h
  rw [hdata] at hlt
  exact absurd hlt (lt_irrefl _)

/-- C10 witness: a name that is a single quote yields a selector that is
not well-formed for that name. -/
theorem workspaceSelector_quote_witness :
    attrSelectorValue (workspaceSelector (String.mk [squoteChar])) ≠
      some (String.mk [squoteChar]) :=
  workspaceSelector_quote_not_that_name (String.mk [squoteChar]) (by decide)

end LoopExporter
